import Mathlib

/- Shallow embedding of the client-side session, authorization and content-list
logic of the frontend-soloProject single-page application, together with proofs
about it.  Pure functions of the TypeScript source are translated to Lean
functions; browser storage and network outcomes are passed explicitly. -/

set_option maxHeartbeats 1000000

namespace SoloProject

/-! ## String utilities modelling JavaScript regular-expression tests -/

/-- Containment of a literal pattern inside a character list, modelling the
substring semantics of a JavaScript regular-expression test with a literal
pattern (for example /abc/.test(s)). -/
def includesAux (pat : List Char) : List Char → Bool
  | [] => pat.isEmpty
  | c :: t => pat.isPrefixOf (c :: t) || includesAux pat t

/-- Substring containment on strings. -/
def strIncludes (s pat : String) : Bool := includesAux pat.toList s.toList

/-- Occurrence of pattern a followed, after arbitrary characters, by pattern b,
modelling a JavaScript regular-expression test of the form /a.*b/. -/
def seqAux (a b : List Char) : List Char → Bool
  | [] => a.isEmpty && b.isEmpty
  | c :: t => (a.isPrefixOf (c :: t) && includesAux b ((c :: t).drop a.length)) || seqAux a b t

/-- Two-part containment on strings: seqIncludes s a b models /a.*b/.test(s). -/
def seqIncludes (s a b : String) : Bool := seqAux a.toList b.toList s.toList

/-- Lower-cased character list of a string (ASCII case folding; characters
outside the ASCII letters, in particular CJK characters, are unchanged). -/
def lowerList (s : String) : List Char := s.toList.map Char.toLower

/-- Case-insensitive substring containment, modelling a /pat/i test. -/
def strIncludesCI (s pat : String) : Bool := includesAux (lowerList pat) (lowerList s)

/-- Test whether the interface language is a Chinese locale, modelling
lang.startsWith(the zh prefix) in ApiService.translateServerMessage. -/
def isZhLang (lang : String) : Bool := "zh".toList.isPrefixOf lang.toList

/-! ## Data model: browser storage and auth records -/

/-- The localStorage keys touched by authService.ts and api.ts; a key that was
never set or was removed is none. -/
structure LocalStorage where
  authToken : Option String
  refreshToken : Option String
  userProfile : Option String
  authProvider : Option String
deriving DecidableEq

/-- UserRole enum of src/types/auth.ts. -/
inductive UserRole
  | USER
  | ADMIN
  | SUPER_USER
deriving DecidableEq

/-- User record of src/types/auth.ts (fields not read by the embedded logic are
omitted). -/
structure User where
  id : String
  username : String
  email : String
  avatarUrl : String
  role : UserRole
deriving DecidableEq

/-- AuthResponse of src/types/auth.ts. -/
structure AuthResponse where
  success : Bool
  message : String
  token : String
  refreshToken : String
  user : User
deriving DecidableEq

/-! ## Role gate (App component, PostManagementPage.tsx line 532) -/

/-- Role gate as written in the source:
isAuthenticated && ((user?.role === SUPER_USER) || (user?.role === ADMIN) ||
(user?.username === the literal admin)).  An optional-chained access on a null
user compares unequal to every literal, hence the per-disjunct matches. -/
def isSuperUser (isAuthenticated : Bool) (user : Option User) : Bool :=
  isAuthenticated &&
    ((match user with | some u => decide (u.role = UserRole.SUPER_USER) | none => false) ||
     (match user with | some u => decide (u.role = UserRole.ADMIN) | none => false) ||
     (match user with | some u => decide (u.username = "admin") | none => false))

/-- Role gate as worded by the spec (section 4.3): isSuperUser = isAuthenticated
AND (user.role == ADMIN OR user.role == SUPER_USER OR user.username == admin),
false for a missing user record.  Kept separate from isSuperUser so the two can
be compared. -/
def specIsSuperUser (isAuthenticated : Bool) (user : Option User) : Bool :=
  isAuthenticated &&
    (match user with
     | some u =>
        decide (u.role = UserRole.ADMIN) || decide (u.role = UserRole.SUPER_USER) ||
          decide (u.username = "admin")
     | none => false)

/-! ## ApiService (api.ts): server-message translation and the request layer -/

/-- ApiService.translateServerMessage: the ordered pattern table of api.ts,
first match wins.  Each regular expression of the table is a disjunction of
literal substrings except two uses of a dot-star gap, modelled by seqIncludes.
The second table entry is the pattern (login failed, optional colon and
whitespace, credential error) or (credential error) alone; since every match of
the first alternative contains the second, the test is containment of the
credential-error literal. -/
def ApiService.translateServerMessage (lang msg : String) : String :=
  let zh := isZhLang lang
  if strIncludes msg "用戶名或密碼錯誤" || strIncludes msg "認證失敗" then
    if zh then "用戶名或密碼錯誤" else "Invalid username or password."
  else if strIncludes msg "憑證錯誤" then
    if zh then "用戶名或密碼錯誤" else "Invalid username or password."
  else if strIncludes msg "使用者名稱不存在" || strIncludes msg "用戶名不存在" then
    if zh then "使用者名稱不存在" else "Username does not exist."
  else if strIncludes msg "用戶名長度必須在3-50個字符之間" then
    if zh then "用戶名長度必須在3-50個字元之間" else "Username must be between 3 and 50 characters."
  else if strIncludes msg "密碼長度至少6個字符" then
    if zh then "密碼長度至少 6 個字元" else "Password must be at least 6 characters."
  else if strIncludes msg "郵箱格式不正確" || strIncludes msg "郵箱格式不正确" then
    if zh then "電子郵件格式不正確" else "Invalid email format."
  else if seqIncludes msg "用戶名" "已存在" || seqIncludes msg "使用者名稱" "已存在" ||
      seqIncludes msg "帳號" "已存在" then
    if zh then "使用者名稱已存在" else "Username already exists."
  else if seqIncludes msg "郵箱" "已被使用" || strIncludes msg "郵箱已存在" ||
      seqIncludes msg "電子郵件" "已被使用" || seqIncludes msg "電子郵件" "已存在" then
    if zh then "電子郵件已被使用" else "Email already exists."
  else if strIncludes msg "密碼確認不匹配" then
    if zh then "兩次密碼輸入不一致" else "Passwords do not match."
  else if zh then msg
  else if strIncludes msg "錯誤" || strIncludes msg "失敗" then
    "Request failed. Please try again."
  else msg

/-- A non-2xx HTTP response as seen by ApiService.request: the ok flag, the
status code, and the message field of the parsed error payload. -/
structure HttpResponse where
  ok : Bool
  status : Nat
  serverMessage : String
deriving DecidableEq

/-- The ApiError thrown by ApiService.request (name and data payload omitted). -/
structure ApiError where
  message : String
  status : Nat
deriving DecidableEq

/-- Error handling of ApiService.request: on a non-ok response the server
message is translated, the access token is removed when the status is 401, and
an ApiError is thrown; on an ok response storage is untouched.  The function
returns the thrown error or success together with the updated storage. -/
def ApiService.request (lang : String) (resp : HttpResponse) (s : LocalStorage) :
    Except ApiError Unit × LocalStorage :=
  if resp.ok then (Except.ok (), s)
  else
    let message := ApiService.translateServerMessage lang resp.serverMessage
    let s2 := if resp.status = 401 then { s with authToken := none } else s
    (Except.error ⟨message, resp.status⟩, s2)

/-- JavaScript truthiness of an optional string: present and non-empty. -/
def truthyOpt : Option String → Bool
  | some s => decide (s ≠ "")
  | none => false

/-! ## AuthService (authService.ts) -/

/-- AuthService.isAuthenticated: double-negation of the stored access token, so
an absent key and an empty-string token are both falsy. -/
def AuthService.isAuthenticated (s : LocalStorage) : Bool :=
  match s.authToken with
  | some t => decide (t ≠ "")
  | none => false

/-- AuthService.logout: a best-effort POST to the logout endpoint carrying the
stored refresh token as a header (empty string when absent); the outcome
serverOk of that call is swallowed by the catch block, and the finally block
removes the four auth keys unconditionally.  The second component is the
Refresh-Token header value that was sent. -/
def AuthService.logout (serverOk : Bool) (s : LocalStorage) : LocalStorage × String :=
  let sentRefreshToken := s.refreshToken.getD ""
  let _ := serverOk
  ({ s with authToken := none, refreshToken := none, userProfile := none, authProvider := none },
    sentRefreshToken)

/-- AuthService.refreshToken: throws the no-refresh-token error when the stored
refresh token is falsy — absent or the empty string, matching the negated
truthiness guard of the source; otherwise performs the token exchange, whose
outcome is serverResp.  Any failure reaches the catch block, which invokes
logout (whose own server call outcome logoutOk is irrelevant to the local
clearing) and rethrows the error.  On success the new pair is stored when the
returned token is truthy. -/
def AuthService.refreshTok (logoutOk : Bool) (serverResp : Except String AuthResponse)
    (s : LocalStorage) : Except String AuthResponse × LocalStorage :=
  if !truthyOpt s.refreshToken then
    (Except.error "沒有刷新令牌", (AuthService.logout logoutOk s).1)
  else
    match serverResp with
    | Except.error e => (Except.error e, (AuthService.logout logoutOk s).1)
    | Except.ok r =>
      if r.token ≠ "" then
        (Except.ok r, { s with authToken := some r.token, refreshToken := some r.refreshToken })
      else (Except.ok r, s)

/-! ## OAuth bootstrap (AuthService.bootstrapFromHash) -/

/-- The pieces of window.location read and written by bootstrapFromHash. -/
structure BrowserWindow where
  hash : String
  store : LocalStorage
deriving DecidableEq

/-- Split a character list on every occurrence of a separator. -/
def splitOnChar (sep : Char) : List Char → List (List Char)
  | [] => [[]]
  | c :: t =>
    if c = sep then [] :: splitOnChar sep t
    else
      match splitOnChar sep t with
      | [] => [[c]]
      | g :: gs => (c :: g) :: gs

/-- Split a character list at the first occurrence of a separator; none when the
separator does not occur. -/
def splitFirst (sep : Char) : List Char → List Char × Option (List Char)
  | [] => ([], none)
  | c :: t =>
    if c = sep then ([], some t)
    else
      let r := splitFirst sep t
      (c :: r.1, r.2)

/-- Model of URLSearchParams over a fragment body: pairs are split on
ampersands, each at its first equals sign; a pair without an equals sign has
the empty value.  Percent-decoding and plus-decoding are not modelled. -/
def parseParams (s : List Char) : List (List Char × List Char) :=
  (splitOnChar '&' s).map (fun piece =>
    let kv := splitFirst '=' piece
    (kv.1, kv.2.getD []))

/-- URLSearchParams.get: the value of the first pair with the given key, none
when the key is absent. -/
def getParam (ps : List (List Char × List Char)) (key : String) : Option String :=
  (ps.find? (fun p => p.1 == key.toList)).map (fun p => String.mk p.2)

/-- AuthService.bootstrapFromHash: returns false and changes nothing when the
hash does not start with a hash mark; otherwise parses the fragment body,
stores the token and refreshToken parameters when each is truthy (present and
non-empty), and when the token is truthy strips the fragment from the URL via
history.replaceState and returns true. -/
def AuthService.bootstrapAux (store : LocalStorage) (orig : BrowserWindow) :
    List Char → Bool × BrowserWindow
  | c :: rest =>
    if c ≠ '#' then (false, orig)
    else
      let params := parseParams rest
      let token := getParam params "token"
      let refreshToken := getParam params "refreshToken"
      let s1 := match token with
        | some t => if t ≠ "" then { store with authToken := some t } else store
        | none => store
      let s2 := match refreshToken with
        | some rt => if rt ≠ "" then { s1 with refreshToken := some rt } else s1
        | none => s1
      match token with
      | some t =>
        if t ≠ "" then (true, { hash := "", store := s2 }) else (false, { orig with store := s2 })
      | none => (false, { orig with store := s2 })
  | [] => (false, orig)

def AuthService.bootstrapFromHash (w : BrowserWindow) : Bool × BrowserWindow :=
  AuthService.bootstrapAux w.store w w.hash.toList

/-! ## Login error surfacing (AuthProvider.login in the auth context) -/

/-- Failure path of AuthProvider.login: the raw message of the caught error is
replaced by the generic credentials message whenever it matches the pattern
(user, password, authentication, credential in Chinese, or Invalid or
credential case-insensitively); otherwise it is stored unchanged. -/
def AuthProvider.normalizeLoginError (rawMessage : String) : String :=
  if strIncludesCI rawMessage "用戶" || strIncludesCI rawMessage "密碼" ||
      strIncludesCI rawMessage "認證" || strIncludesCI rawMessage "憑證" ||
      strIncludesCI rawMessage "Invalid" || strIncludesCI rawMessage "credential" then
    "用戶名或密碼錯誤"
  else rawMessage

/-- Error message surfaced by the session manager for a failed login: the
request layer translates the server message into the thrown ApiError message,
and AuthProvider.login normalizes that raw message. -/
def loginSurfacedError (lang serverMessage : String) : String :=
  AuthProvider.normalizeLoginError (ApiService.translateServerMessage lang serverMessage)

/-! ## Content model and the list pipeline (PostManagementPage.tsx) -/

/-- Blog post fields read by the management pipeline.  The date field is the
timestamp produced by parsing the date string (new Date of it, getTime). -/
structure BlogPostData where
  id : String
  title : String
  titleZh : Option String
  date : Int
  categoryKey : Option String
  views : Option Int
deriving DecidableEq

/-- SortOrder union type of PostManagementPage.tsx. -/
inductive SortOrder
  | dateDesc
  | dateAsc
  | titleAsc
  | titleDesc
  | viewsDesc
  | viewsAsc
deriving DecidableEq

/-- Title used by the comparator: the Chinese title when the language is
zh-Hant and that title is truthy, else the plain title (or-empty falls back to
the title itself, since the empty string is its own fallback). -/
def postTitleFor (lang : String) (p : BlogPostData) : String :=
  if lang == "zh-Hant" && truthyOpt p.titleZh then p.titleZh.getD "" else p.title

/-- Model of String.prototype.localeCompare: a three-way comparison that is
negative, zero or positive; the collation is modelled as the lexicographic
order on strings. -/
def localeCompare (s t : String) : Int :=
  if s < t then -1 else if t < s then 1 else 0

/-- Comparator of the processedPosts sort (PostManagementPage.tsx lines 62-74). -/
def postCompare (lang : String) (so : SortOrder) (a b : BlogPostData) : Int :=
  let titleA := postTitleFor lang a
  let titleB := postTitleFor lang b
  match so with
  | SortOrder.dateAsc => a.date - b.date
  | SortOrder.titleAsc => localeCompare titleA titleB
  | SortOrder.titleDesc => localeCompare titleB titleA
  | SortOrder.viewsDesc => b.views.getD 0 - a.views.getD 0
  | SortOrder.viewsAsc => a.views.getD 0 - b.views.getD 0
  | SortOrder.dateDesc => b.date - a.date

/-- Sorting stage of processedPosts.  Array.prototype.sort is required by the
language standard to be stable; a stable sort under comparator c is modelled as
mergeSort with the relation (c a b is non-positive). -/
def sortPosts (lang : String) (so : SortOrder) (items : List BlogPostData) : List BlogPostData :=
  items.mergeSort (fun a b => decide (postCompare lang so a b ≤ 0))

/-- One entry of blogCategoryDefinitions (components/data/blogData): a logical
category and the underlying category keys belonging to it. -/
structure BlogCategoryDef where
  titleKey : String
  categoryKeys : List String
deriving DecidableEq

/-- Filtering stage of processedPosts: when the filter is not the all category,
the first definition whose titleKey equals the filter selects the posts whose
truthy categoryKey is among its category keys; an unknown filter leaves the
collection unchanged. -/
def filterPosts (defs : List BlogCategoryDef) (filterCategory : String)
    (items : List BlogPostData) : List BlogPostData :=
  if filterCategory ≠ "all" then
    match defs.find? (fun d => d.titleKey == filterCategory) with
    | some activeCategoryDef =>
      items.filter (fun post =>
        truthyOpt post.categoryKey &&
          activeCategoryDef.categoryKeys.contains (post.categoryKey.getD ""))
    | none => items
  else items

/-- processedPosts (PostManagementPage.tsx lines 50-77): filter then sort.  The
blogCategoryDefinitions data is passed as the defs parameter. -/
def processedPosts (defs : List BlogCategoryDef) (lang : String) (filterCategory : String)
    (so : SortOrder) (posts : List BlogPostData) : List BlogPostData :=
  sortPosts lang so (filterPosts defs filterCategory posts)

/-- paginatedPosts (PostManagementPage.tsx lines 79-82): the slice from
(currentPage - 1) * itemsPerPage of length itemsPerPage. -/
def paginate {α : Type} (currentPage itemsPerPage : Nat) (l : List α) : List α :=
  (l.drop ((currentPage - 1) * itemsPerPage)).take itemsPerPage

/-! ## Portfolio list pipeline (AddBlogPostPage.tsx, sortedItems) -/

/-- Portfolio item fields read by the portfolio pipeline; the date is the
parsed timestamp, none when the date string is falsy. -/
structure PortfolioItemData where
  id : String
  title : String
  titleZh : Option String
  date : Option Int
  categoryKey : Option String
  views : Option Int
deriving DecidableEq

/-- Sort keys of the portfolio page pipeline. -/
inductive PSortKey
  | dateAsc
  | titleAsc
  | titleDesc
  | categoryAsc
  | categoryDesc
  | viewsDesc
  | viewsAsc
  | dateDesc
deriving DecidableEq

/-- Title used by the portfolio comparator: the Chinese title when the language
is zh-Hant and it is truthy, else the title with the id as or-fallback. -/
def portfolioTitleFor (lang : String) (a : PortfolioItemData) : String :=
  if lang == "zh-Hant" && truthyOpt a.titleZh then a.titleZh.getD ""
  else if a.title == "" then a.id else a.title

/-- Comparator of the sortedItems sort (AddBlogPostPage.tsx lines 558-575); tr
models the translation function applied to category keys. -/
def portfolioCompare (lang : String) (tr : String → String) (k : PSortKey)
    (a b : PortfolioItemData) : Int :=
  let titleA := portfolioTitleFor lang a
  let titleB := portfolioTitleFor lang b
  let categoryA := tr (a.categoryKey.getD "")
  let categoryB := tr (b.categoryKey.getD "")
  match k with
  | PSortKey.dateAsc => a.date.getD 0 - b.date.getD 0
  | PSortKey.titleAsc => localeCompare titleA titleB
  | PSortKey.titleDesc => localeCompare titleB titleA
  | PSortKey.categoryAsc => localeCompare categoryA categoryB
  | PSortKey.categoryDesc => localeCompare categoryB categoryA
  | PSortKey.viewsDesc => b.views.getD 0 - a.views.getD 0
  | PSortKey.viewsAsc => a.views.getD 0 - b.views.getD 0
  | PSortKey.dateDesc => b.date.getD 0 - a.date.getD 0

/-- sortedItems of the portfolio page: stable sort of all items under the
selected key. -/
def sortedItems (lang : String) (tr : String → String) (k : PSortKey)
    (items : List PortfolioItemData) : List PortfolioItemData :=
  items.mergeSort (fun a b => decide (portfolioCompare lang tr k a b ≤ 0))

/-! ## Content-mutating handlers of the App component (PostManagementPage.tsx) -/

/-- Comment record as mapped from the backend (fields not read by the handlers
are omitted). -/
structure Comment where
  id : String
  postId : String
  parentId : Option String
deriving DecidableEq

/-- handleSaveBlogPost (line 747): no-op without super-user rights; otherwise
replace the post with a matching id, or prepend when there is none. -/
def handleSaveBlogPost (isSuperUser : Bool) (postData : BlogPostData)
    (posts : List BlogPostData) : List BlogPostData :=
  if !isSuperUser then posts
  else
    match posts.findIdx? (fun item => item.id == postData.id) with
    | some i => posts.set i postData
    | none => postData :: posts

/-- handleAddBlogPost (line 748): no-op without super-user rights; otherwise
prepend. -/
def handleAddBlogPost (isSuperUser : Bool) (postData : BlogPostData)
    (posts : List BlogPostData) : List BlogPostData :=
  if !isSuperUser then posts else postData :: posts

/-- handleDeleteBlogPosts (lines 749-762): no-op without super-user rights;
otherwise a delete request per id, and on success the posts with those ids are
filtered out (on failure an alert is shown and state is unchanged).  The second
component lists the backend requests issued. -/
def handleDeleteBlogPosts (isSuperUser serverOk : Bool) (ids : List String)
    (posts : List BlogPostData) : List BlogPostData × List String :=
  if !isSuperUser then (posts, [])
  else
    let requests := ids.map (fun i => "DELETE /content/posts/" ++ i)
    if serverOk then (posts.filter (fun post => !(ids.contains post.id)), requests)
    else (posts, requests)

/-- handleAddPortfolioItem (line 763): no-op without super-user rights;
otherwise prepend. -/
def handleAddPortfolioItem (isSuperUser : Bool) (item : PortfolioItemData)
    (items : List PortfolioItemData) : List PortfolioItemData :=
  if !isSuperUser then items else item :: items

/-- handleUpdatePortfolioItem (line 764): no-op without super-user rights;
otherwise replace every item with a matching id. -/
def handleUpdatePortfolioItem (isSuperUser : Bool) (item : PortfolioItemData)
    (items : List PortfolioItemData) : List PortfolioItemData :=
  if !isSuperUser then items
  else items.map (fun i => if i.id == item.id then item else i)

/-- handleDeletePortfolioItems (lines 765-778): same shape as the post
deletion, over the portfolio endpoint. -/
def handleDeletePortfolioItems (isSuperUser serverOk : Bool) (ids : List String)
    (items : List PortfolioItemData) : List PortfolioItemData × List String :=
  if !isSuperUser then (items, [])
  else
    let requests := ids.map (fun i => "DELETE /content/portfolio/" ++ i)
    if serverOk then (items.filter (fun it => !(ids.contains it.id)), requests)
    else (items, requests)

/-- One level of the findChildren walk of handleDeleteComment: visit each child
in order, adding its id to the accumulator and then recursing through rec. -/
def goChildren (rec : String → List String → List String) :
    List Comment → List String → List String
  | [], acc => acc
  | c :: rest, acc => goChildren rec rest (rec c.id (c.id :: acc))

/-- The depth-first findChildren recursion of handleDeleteComment (lines
859-864): the children of a parent id are the comments whose parentId equals
it; each child id is added and its own subtree visited.  The source recursion
carries no visited check and no bound, so it diverges on a cyclic parentId
chain; the fuel parameter bounds the depth, and a fuel of the collection length
plus one covers every chain of distinct comments. -/
def findChildrenDfs (cs : List Comment) : Nat → String → List String → List String
  | 0 => fun _ acc => acc
  | fuel + 1 => fun parentId acc =>
    goChildren (findChildrenDfs cs fuel)
      (cs.filter (fun c => c.parentId == some parentId)) acc

/-- The toDelete set of handleDeleteComment: the deleted id itself plus the
depth-first walk from it. -/
def commentsToDelete (cs : List Comment) (delId : String) : List String :=
  findChildrenDfs cs (cs.length + 1) delId [delId]

/-- handleDeleteComment (lines 855-871): no-op without super-user rights;
otherwise one delete request, and on success every comment whose id is in the
toDelete set is removed (on failure an alert is shown and state is unchanged). -/
def handleDeleteComment (isSuperUser serverOk : Bool) (delId : String)
    (cs : List Comment) : List Comment × List String :=
  if !isSuperUser then (cs, [])
  else
    let requests := ["DELETE /comments/" ++ delId]
    if serverOk then
      (cs.filter (fun c => !((commentsToDelete cs delId).contains c.id)), requests)
    else (cs, requests)

/-- Reply chains: IsChain cs root l holds when l lists comments of cs whose
first member has parentId root and each later member has the parentId of its
predecessor; every member of such a chain is a transitive descendant of root. -/
def IsChain (cs : List Comment) : String → List Comment → Prop
  | _, [] => True
  | root, c :: rest => c ∈ cs ∧ c.parentId = some root ∧ IsChain cs c.id rest

/-- Acyclicity certificate for the reply forest: a rank function that strictly
decreases from parent to child rules out cyclic parentId chains. -/
def rankOk (rank : String → Nat) (c : Comment) : Bool :=
  match c.parentId with
  | some p => decide (rank c.id < rank p)
  | none => true

/-! ## Theorems -/

/-- C1: the role gate is the pure derivation of the spec; an authenticated user
with role USER and username admin passes the gate, and an unauthenticated
session never does, regardless of the user record. -/
theorem isSuperUser_spec :
    (∀ (b : Bool) (u : Option User), isSuperUser b u = specIsSuperUser b u) ∧
    (∀ u : User, u.role = UserRole.USER → u.username = "admin" →
      isSuperUser true (some u) = true) ∧
    (∀ u : Option User, isSuperUser false u = false) := by
  refine ⟨?_, ?_, ?_⟩
  · intro b u
    cases u with
    | none => simp [isSuperUser, specIsSuperUser]
    | some u =>
      simp only [isSuperUser, specIsSuperUser]
      congr 1
      simp only [Bool.or_assoc, Bool.or_comm, Bool.or_left_comm]
  · intro u hrole hname
    simp [isSuperUser, hname]
  · intro u
    simp [isSuperUser]

/-- Witness for C1: a concrete authenticated user with role USER and username
admin passes the role gate. -/
theorem isSuperUser_spec_witness :
    isSuperUser true (some ⟨"7", "admin", "a@b.c", "", UserRole.USER⟩) = true :=
  isSuperUser_spec.2.1 ⟨"7", "admin", "a@b.c", "", UserRole.USER⟩ rfl rfl

/-- C2: logout clears the access token, the refresh token and the cached user
profile whether or not the server-side logout call succeeds. -/
theorem logout_clears_storage :
    ∀ (serverOk : Bool) (s : LocalStorage),
      (AuthService.logout serverOk s).1.authToken = none ∧
      (AuthService.logout serverOk s).1.refreshToken = none ∧
      (AuthService.logout serverOk s).1.userProfile = none := by
  intro serverOk s
  refine ⟨rfl, rfl, rfl⟩

/-- C3 counterexample: the claim says a 401 clears the Token Store, but the
request layer only removes the access token; at this concrete input the
refresh token survives the 401, so the store is not cleared. -/
theorem request401_counterexample :
    (ApiService.request "en" ⟨false, 401, "boom"⟩
        ⟨some "acc", some "ref", some "profile", some "local"⟩).2.refreshToken = some "ref" ∧
      some "ref" ≠ (none : Option String) := by
  exact ⟨rfl, by decide⟩

/-- C3 amended: a 401 on any request removes the access token (only), and a
subsequent isAuthenticated check returns false; the refresh token and the
cached profile are left in place. -/
theorem request401_clears_access_token
    (lang : String) (resp : HttpResponse) (s : LocalStorage)
    (hok : resp.ok = false) (hst : resp.status = 401) :
    (ApiService.request lang resp s).2.authToken = none ∧
    AuthService.isAuthenticated (ApiService.request lang resp s).2 = false ∧
    (ApiService.request lang resp s).2.refreshToken = s.refreshToken ∧
    (ApiService.request lang resp s).2.userProfile = s.userProfile := by
  simp [ApiService.request, hok, hst, AuthService.isAuthenticated]

/-- Witness for the amended C3 at a concrete 401 response and store. -/
theorem request401_clears_access_token_witness :
    (ApiService.request "en" ⟨false, 401, "boom"⟩
        ⟨some "acc", some "ref", some "profile", some "local"⟩).2.authToken = none ∧
    AuthService.isAuthenticated (ApiService.request "en" ⟨false, 401, "boom"⟩
        ⟨some "acc", some "ref", some "profile", some "local"⟩).2 = false ∧
    (ApiService.request "en" ⟨false, 401, "boom"⟩
        ⟨some "acc", some "ref", some "profile", some "local"⟩).2.refreshToken = some "ref" ∧
    (ApiService.request "en" ⟨false, 401, "boom"⟩
        ⟨some "acc", some "ref", some "profile", some "local"⟩).2.userProfile = some "profile" :=
  request401_clears_access_token "en" ⟨false, 401, "boom"⟩
    ⟨some "acc", some "ref", some "profile", some "local"⟩ rfl rfl

/-- C9: every content-mutating handler is a no-op when the caller is not the
super user: the state is returned unchanged and no backend request is issued. -/
theorem handlers_noop_without_superuser :
    (∀ pd posts, handleSaveBlogPost false pd posts = posts) ∧
    (∀ pd posts, handleAddBlogPost false pd posts = posts) ∧
    (∀ ok ids posts, handleDeleteBlogPosts false ok ids posts = (posts, [])) ∧
    (∀ item items, handleAddPortfolioItem false item items = items) ∧
    (∀ item items, handleUpdatePortfolioItem false item items = items) ∧
    (∀ ok ids items, handleDeletePortfolioItems false ok ids items = (items, [])) ∧
    (∀ ok delId cs, handleDeleteComment false ok delId cs = (cs, [])) := by
  refine ⟨?_, ?_, ?_, ?_, ?_, ?_, ?_⟩ <;> intros <;> rfl

/-- C6: every failing refresh — a falsy stored refresh token (absent or the
empty string) or a failed token exchange — clears the access token, the
refresh token and the cached profile (the forced logout) and rethrows the
error; in the exchange-failure case with a truthy stored token the rethrown
error is exactly the request error, and with a stored empty-string token the
no-refresh-token error is thrown without consulting the exchange. -/
theorem refresh_failure_forces_logout :
    (∀ (logoutOk : Bool) (resp : Except String AuthResponse) (s : LocalStorage),
      (truthyOpt s.refreshToken = false ∨ ∃ e, resp = Except.error e) →
      ((∃ e, (AuthService.refreshTok logoutOk resp s).1 = Except.error e) ∧
        (AuthService.refreshTok logoutOk resp s).2.authToken = none ∧
        (AuthService.refreshTok logoutOk resp s).2.refreshToken = none ∧
        (AuthService.refreshTok logoutOk resp s).2.userProfile = none)) ∧
    (∀ (logoutOk : Bool) (e : String) (rt : String) (s : LocalStorage),
      s.refreshToken = some rt → rt ≠ "" →
      (AuthService.refreshTok logoutOk (Except.error e) s).1 = Except.error e) ∧
    (∀ (logoutOk : Bool) (resp : Except String AuthResponse) (s : LocalStorage),
      s.refreshToken = some "" →
      (AuthService.refreshTok logoutOk resp s).1 = Except.error "沒有刷新令牌") := by
  refine ⟨?_, ?_, ?_⟩
  · intro logoutOk resp s hfail
    by_cases ht : truthyOpt s.refreshToken = true
    · rcases hfail with hf | ⟨e, he⟩
      · rw [ht] at hf; cases hf
      · subst he
        simp [AuthService.refreshTok, AuthService.logout, ht]
    · have ht2 : truthyOpt s.refreshToken = false := by
        cases h : truthyOpt s.refreshToken
        · rfl
        · exact absurd h ht
      simp [AuthService.refreshTok, AuthService.logout, ht2]
  · intro logoutOk e rt s hrt hne
    have ht : truthyOpt s.refreshToken = true := by
      rw [hrt]
      simpa [truthyOpt] using hne
    simp [AuthService.refreshTok, ht]
  · intro logoutOk resp s hrt
    have ht : truthyOpt s.refreshToken = false := by
      rw [hrt]
      rfl
    simp [AuthService.refreshTok, ht]

/-- Witness for C6: with no stored refresh token the refresh fails and all
three auth values are cleared. -/
theorem refresh_failure_forces_logout_witness :
    (∃ e, (AuthService.refreshTok true (Except.error "x")
        ⟨some "acc", none, some "profile", none⟩).1 = Except.error e) ∧
    (AuthService.refreshTok true (Except.error "x")
        ⟨some "acc", none, some "profile", none⟩).2.authToken = none ∧
    (AuthService.refreshTok true (Except.error "x")
        ⟨some "acc", none, some "profile", none⟩).2.refreshToken = none ∧
    (AuthService.refreshTok true (Except.error "x")
        ⟨some "acc", none, some "profile", none⟩).2.userProfile = none :=
  refresh_failure_forces_logout.1 true (Except.error "x")
    ⟨some "acc", none, some "profile", none⟩ (Or.inl rfl)

/-- C4 counterexample: with interface language en, a server message saying the
username does not exist is surfaced verbatim as the translated message, which
differs from the generic message surfaced for a wrong-password failure — the
surfaced error is not identical across the two runs and reveals whether the
username exists. -/
theorem login_error_counterexample :
    loginSurfacedError "en" "用戶名不存在" = "Username does not exist." ∧
    loginSurfacedError "en" "用戶名或密碼錯誤" = "用戶名或密碼錯誤" ∧
    loginSurfacedError "en" "用戶名不存在" ≠ loginSurfacedError "en" "用戶名或密碼錯誤" := by
  refine ⟨by decide, by decide, by decide⟩

/-- C4 amended: a failed login whose server message matches the known
credential-failure patterns (wrong username or password, authentication
failure, credential error) surfaces the generic invalid-credentials message in
every interface language; but a server message reporting that the username
does not exist passes through untouched (as the translated
username-does-not-exist text), so the surfaced error can reveal whether the
username exists. -/
theorem login_error_generic_for_credential_failures :
    (∀ lang raw,
      (strIncludes raw "用戶名或密碼錯誤" || strIncludes raw "認證失敗" ||
        strIncludes raw "憑證錯誤") = true →
      loginSurfacedError lang raw = "用戶名或密碼錯誤") ∧
    loginSurfacedError "en" "用戶名不存在" = "Username does not exist." ∧
    loginSurfacedError "zh-Hant" "用戶名不存在" = "使用者名稱不存在" := by
  refine ⟨?_, by decide, by decide⟩
  intro lang raw h
  unfold loginSurfacedError ApiService.translateServerMessage
  by_cases h1 : (strIncludes raw "用戶名或密碼錯誤" || strIncludes raw "認證失敗") = true
  · rw [if_pos h1]
    by_cases hzh : isZhLang lang = true
    · simp only [hzh, if_true]
      decide
    · simp only [Bool.not_eq_true] at hzh
      simp only [hzh, Bool.false_eq_true, if_false]
      decide
  · have h2 : strIncludes raw "憑證錯誤" = true := by
      simp only [Bool.or_eq_true] at h h1
      tauto
    rw [if_neg h1, if_pos h2]
    by_cases hzh : isZhLang lang = true
    · simp only [hzh, if_true]
      decide
    · simp only [Bool.not_eq_true] at hzh
      simp only [hzh, Bool.false_eq_true, if_false]
      decide

/-- Witness for the amended C4: a concrete authentication-failure server
message surfaces the generic invalid-credentials message. -/
theorem login_error_generic_witness :
    loginSurfacedError "zh-Hant" "登入失敗: 認證失敗" = "用戶名或密碼錯誤" :=
  login_error_generic_for_credential_failures.1 "zh-Hant" "登入失敗: 認證失敗" (by decide)

/-- The localeCompare model is non-positive exactly when the first string is at
most the second. -/
theorem localeCompare_nonpos (s t : String) : localeCompare s t ≤ 0 ↔ s ≤ t := by
  unfold localeCompare
  by_cases h1 : s < t
  · simp only [h1, if_true]
    constructor
    · intro _; exact le_of_lt h1
    · intro _; omega
  · by_cases h2 : t < s
    · simp only [h1, if_false, h2, if_true]
      constructor
      · intro h; omega
      · intro h; exact absurd h2 (not_lt.mpr h)
    · simp only [h1, if_false, h2]
      constructor
      · intro _; exact le_of_not_lt h2
      · intro _; omega

/-- Transitivity of the non-positive half of the post comparator. -/
theorem postCompare_trans (lang : String) (so : SortOrder) (a b c : BlogPostData)
    (hab : postCompare lang so a b ≤ 0) (hbc : postCompare lang so b c ≤ 0) :
    postCompare lang so a c ≤ 0 := by
  cases so <;> simp only [postCompare] at hab hbc ⊢
  case dateAsc => omega
  case dateDesc => omega
  case viewsAsc => omega
  case viewsDesc => omega
  case titleAsc =>
    rw [localeCompare_nonpos] at hab hbc ⊢
    exact le_trans hab hbc
  case titleDesc =>
    rw [localeCompare_nonpos] at hab hbc ⊢
    exact le_trans hbc hab

/-- Totality of the non-positive half of the post comparator. -/
theorem postCompare_total (lang : String) (so : SortOrder) (a b : BlogPostData) :
    postCompare lang so a b ≤ 0 ∨ postCompare lang so b a ≤ 0 := by
  cases so <;> simp only [postCompare]
  case dateAsc => omega
  case dateDesc => omega
  case viewsAsc => omega
  case viewsDesc => omega
  case titleAsc =>
    simp only [localeCompare_nonpos]
    exact le_total _ _
  case titleDesc =>
    simp only [localeCompare_nonpos]
    exact le_total _ _

/-- Transitivity of the non-positive half of the portfolio comparator. -/
theorem portfolioCompare_trans (lang : String) (tr : String → String) (k : PSortKey)
    (a b c : PortfolioItemData)
    (hab : portfolioCompare lang tr k a b ≤ 0) (hbc : portfolioCompare lang tr k b c ≤ 0) :
    portfolioCompare lang tr k a c ≤ 0 := by
  cases k <;> simp only [portfolioCompare] at hab hbc ⊢
  case dateAsc => omega
  case dateDesc => omega
  case viewsAsc => omega
  case viewsDesc => omega
  case titleAsc =>
    rw [localeCompare_nonpos] at hab hbc ⊢
    exact le_trans hab hbc
  case titleDesc =>
    rw [localeCompare_nonpos] at hab hbc ⊢
    exact le_trans hbc hab
  case categoryAsc =>
    rw [localeCompare_nonpos] at hab hbc ⊢
    exact le_trans hab hbc
  case categoryDesc =>
    rw [localeCompare_nonpos] at hab hbc ⊢
    exact le_trans hbc hab

/-- Totality of the non-positive half of the portfolio comparator. -/
theorem portfolioCompare_total (lang : String) (tr : String → String) (k : PSortKey)
    (a b : PortfolioItemData) :
    portfolioCompare lang tr k a b ≤ 0 ∨ portfolioCompare lang tr k b a ≤ 0 := by
  cases k <;> simp only [portfolioCompare]
  case dateAsc => omega
  case dateDesc => omega
  case viewsAsc => omega
  case viewsDesc => omega
  case titleAsc =>
    simp only [localeCompare_nonpos]
    exact le_total _ _
  case titleDesc =>
    simp only [localeCompare_nonpos]
    exact le_total _ _
  case categoryAsc =>
    simp only [localeCompare_nonpos]
    exact le_total _ _
  case categoryDesc =>
    simp only [localeCompare_nonpos]
    exact le_total _ _

/-- C7: both content-list sorts are idempotent for every sort key — sorting the
output of the sort again yields the same order, a consequence of the stable
sort and of the comparator being a total preorder. -/
theorem sort_idempotent :
    (∀ (lang : String) (so : SortOrder) (items : List BlogPostData),
      sortPosts lang so (sortPosts lang so items) = sortPosts lang so items) ∧
    (∀ (lang : String) (tr : String → String) (k : PSortKey)
        (items : List PortfolioItemData),
      sortedItems lang tr k (sortedItems lang tr k items) = sortedItems lang tr k items) := by
  constructor
  · intro lang so items
    unfold sortPosts
    apply List.mergeSort_of_sorted
    apply List.sorted_mergeSort
    · intro a b c h1 h2
      simp only [decide_eq_true_eq] at h1 h2 ⊢
      exact postCompare_trans lang so a b c h1 h2
    · intro a b
      simp only [Bool.or_eq_true, decide_eq_true_eq]
      exact postCompare_total lang so a b
  · intro lang tr k items
    unfold sortedItems
    apply List.mergeSort_of_sorted
    apply List.sorted_mergeSort
    · intro a b c h1 h2
      simp only [decide_eq_true_eq] at h1 h2 ⊢
      exact portfolioCompare_trans lang tr k a b c h1 h2
    · intro a b
      simp only [Bool.or_eq_true, decide_eq_true_eq]
      exact portfolioCompare_total lang tr k a b

/-- Advancing the page by one is the same as paginating the collection with its
first pageful dropped. -/
theorem paginate_succ {α : Type} (l : List α) (page size : Nat) (hp : 1 ≤ page) :
    paginate (page + 1) size l = paginate page size (l.drop size) := by
  cases page with
  | zero => omega
  | succ p =>
    unfold paginate
    rw [List.drop_drop]
    have h : (p + 1 + 1 - 1) * size = size + (p + 1 - 1) * size := by
      simp only [Nat.add_sub_cancel]
      ring
    rw [h]

/-- Concatenating pages one through the page count (the ceiling of length over
page size) reconstructs the collection. -/
theorem flatten_pages {α : Type} :
    ∀ (n : Nat) (l : List α) (size : Nat), 0 < size →
      n = (l.length + size - 1) / size →
      ((List.range n).map (fun i => paginate (i + 1) size l)).flatten = l := by
  intro n
  induction n with
  | zero =>
    intro l size hs hn
    have hlt : l.length + size - 1 < size := (Nat.div_eq_zero_iff hs).mp hn.symm
    have hlen : l.length = 0 := by omega
    rw [List.length_eq_zero.mp hlen]
    rfl
  | succ m ih =>
    intro l size hs hn
    have hlen : 1 ≤ l.length := by
      by_contra h
      have h0 : l.length = 0 := by omega
      rw [h0] at hn
      have : (0 + size - 1) / size = 0 := Nat.div_eq_of_lt (by omega)
      omega
    have hm : m = (l.length - 1) / size := by
      have h1 : l.length + size - 1 = (l.length - 1) + size := by omega
      rw [h1, Nat.add_div_right _ hs] at hn
      omega
    have hrec : m = ((l.drop size).length + size - 1) / size := by
      rw [List.length_drop]
      by_cases hle : size ≤ l.length
      · have h2 : l.length - size + size - 1 = l.length - 1 := by omega
        rw [h2, hm]
      · have h2 : l.length - size = 0 := by omega
        rw [h2, hm, Nat.div_eq_of_lt (by omega), Nat.div_eq_of_lt (by omega)]
    calc ((List.range (m + 1)).map (fun i => paginate (i + 1) size l)).flatten
        = l.take size ++
            ((List.range m).map (fun i => paginate (i + 1) size (l.drop size))).flatten := by
          rw [List.range_succ_eq_map]
          simp only [List.map_cons, List.flatten_cons, List.map_map]
          congr 1
          · simp [paginate]
          · congr 1
            apply List.map_congr_left
            intro i _
            show paginate (Nat.succ i + 1) size l = paginate (i + 1) size (l.drop size)
            exact paginate_succ l (i + 1) size (by omega)
      _ = l.take size ++ l.drop size := by rw [ih (l.drop size) size hs hrec]
      _ = l := List.take_append_drop size l

/-- C8: pagination is the exact slice from (page - 1) * pageSize to
page * pageSize; the pages one through the page count, concatenated, rebuild
the filtered-and-sorted collection exactly (each item once, none dropped); and
a page beyond the last yields the empty list rather than an error. -/
theorem paginate_spec :
    (∀ (α : Type) (l : List α) (page size : Nat), 1 ≤ page →
      paginate page size l = (l.take (page * size)).drop ((page - 1) * size)) ∧
    (∀ (defs : List BlogCategoryDef) (lang filterCategory : String) (so : SortOrder)
        (posts : List BlogPostData) (size : Nat), 0 < size →
      ((List.range
            (((processedPosts defs lang filterCategory so posts).length + size - 1) / size)).map
          (fun i => paginate (i + 1) size (processedPosts defs lang filterCategory so posts))).flatten
        = processedPosts defs lang filterCategory so posts) ∧
    (∀ (α : Type) (l : List α) (page size : Nat), l.length ≤ (page - 1) * size →
      paginate page size l = []) := by
  refine ⟨?_, ?_, ?_⟩
  · intro α l page size hp
    unfold paginate
    rw [List.drop_take]
    cases page with
    | zero => omega
    | succ p =>
      have h : (p + 1) * size - (p + 1 - 1) * size = size := by
        simp only [Nat.add_sub_cancel, Nat.succ_mul]
        generalize p * size = t
        omega
      rw [h]
  · intro defs lang filterCategory so posts size hs
    exact flatten_pages _ (processedPosts defs lang filterCategory so posts) size hs rfl
  · intro α l page size hlen
    unfold paginate
    rw [List.drop_eq_nil_of_le hlen]
    exact List.take_nil

/-- Witness for C8: the three pagination facts at concrete collections, pages
and page sizes. -/
theorem paginate_spec_witness :
    (paginate 2 2 [10, 20, 30, 40, 50] = (([10, 20, 30, 40, 50].take (2 * 2)).drop ((2 - 1) * 2) : List Nat)) ∧
    (((List.range
          (((processedPosts [] "en" "all" SortOrder.dateDesc
              [⟨"1", "A", none, 5, none, none⟩, ⟨"2", "B", none, 9, none, none⟩,
                ⟨"3", "C", none, 1, none, none⟩]).length + 2 - 1) / 2)).map
        (fun i => paginate (i + 1) 2 (processedPosts [] "en" "all" SortOrder.dateDesc
              [⟨"1", "A", none, 5, none, none⟩, ⟨"2", "B", none, 9, none, none⟩,
                ⟨"3", "C", none, 1, none, none⟩]))).flatten
      = processedPosts [] "en" "all" SortOrder.dateDesc
          [⟨"1", "A", none, 5, none, none⟩, ⟨"2", "B", none, 9, none, none⟩,
            ⟨"3", "C", none, 1, none, none⟩]) ∧
    (paginate 9 2 [10, 20, 30] = ([] : List Nat)) :=
  ⟨paginate_spec.1 Nat [10, 20, 30, 40, 50] 2 2 (by decide),
    paginate_spec.2.1 [] "en" "all" SortOrder.dateDesc
      [⟨"1", "A", none, 5, none, none⟩, ⟨"2", "B", none, 9, none, none⟩,
        ⟨"3", "C", none, 1, none, none⟩] 2 (by decide),
    paginate_spec.2.2 Nat [10, 20, 30] 9 2 (by decide)⟩

/-- Rebuilding a string from its character list is the identity. -/
theorem mk_toList (s : String) : String.mk s.toList = s := by
  cases s
  rfl

/-- Splitting a list that does not contain the separator yields one group. -/
theorem splitOnChar_no_sep (sep : Char) :
    ∀ (l : List Char), sep ∉ l → splitOnChar sep l = [l] := by
  intro l
  induction l with
  | nil => intro _; rfl
  | cons c t ih =>
    intro h
    have hc : ¬ c = sep := fun he => h (he ▸ List.mem_cons_self c t)
    rw [splitOnChar, if_neg hc, ih (fun hm => h (List.mem_cons_of_mem c hm))]

/-- Splitting around the first separator occurrence peels off the prefix. -/
theorem splitOnChar_append (sep : Char) :
    ∀ (xs ys : List Char), sep ∉ xs →
      splitOnChar sep (xs ++ sep :: ys) = xs :: splitOnChar sep ys := by
  intro xs
  induction xs with
  | nil =>
    intro ys _
    rw [List.nil_append, splitOnChar, if_pos rfl]
  | cons c t ih =>
    intro ys h
    have hc : ¬ c = sep := fun he => h (he ▸ List.mem_cons_self c t)
    rw [List.cons_append, splitOnChar, if_neg hc,
      ih ys (fun hm => h (List.mem_cons_of_mem c hm))]

/-- Splitting a pair at its first equals sign recovers key and value when the
key contains no separator. -/
theorem splitFirst_append (sep : Char) :
    ∀ (k v : List Char), sep ∉ k → splitFirst sep (k ++ sep :: v) = (k, some v) := by
  intro k
  induction k with
  | nil =>
    intro v _
    rw [List.nil_append, splitFirst, if_pos rfl]
  | cons c t ih =>
    intro v h
    have hc : ¬ c = sep := fun he => h (he ▸ List.mem_cons_self c t)
    rw [List.cons_append, splitFirst, if_neg hc, ih v (fun hm => h (List.mem_cons_of_mem c hm))]

/-- Parsing a two-parameter fragment body yields the two key-value pairs when
neither value contains an ampersand or an equals sign. -/
theorem parseParams_two (A X : List Char)
    (hA : ∀ c ∈ A, c ≠ '&' ∧ c ≠ '=') (hX : ∀ c ∈ X, c ≠ '&' ∧ c ≠ '=') :
    parseParams (("token".toList ++ '=' :: A) ++ '&' :: ("refreshToken".toList ++ '=' :: X)) =
      [("token".toList, A), ("refreshToken".toList, X)] := by
  have hamp1 : '&' ∉ "token".toList ++ '=' :: A := by
    intro hm
    rcases List.mem_append.mp hm with h | h
    · revert h; decide
    · rcases List.mem_cons.mp h with h | h
      · exact absurd h (by decide)
      · exact (hA _ h).1 rfl
  have hamp2 : '&' ∉ "refreshToken".toList ++ '=' :: X := by
    intro hm
    rcases List.mem_append.mp hm with h | h
    · revert h; decide
    · rcases List.mem_cons.mp h with h | h
      · exact absurd h (by decide)
      · exact (hX _ h).1 rfl
  unfold parseParams
  rw [splitOnChar_append _ _ _ hamp1, splitOnChar_no_sep _ _ hamp2]
  rw [List.map_cons, List.map_cons, List.map_nil]
  rw [splitFirst_append _ _ _ (by decide), splitFirst_append _ _ _ (by decide)]
  rfl

/-- C5: an app load whose URL fragment has the shape hash mark, token equals
abc, ampersand, refreshToken equals xyz — with both values non-empty and free
of separator characters (percent-encoding is outside the model) — persists
accessToken abc and refreshToken xyz, strips the fragment from the visible
URL, and returns true. -/
theorem bootstrapFromHash_oauth (abc xyz : String) (s : LocalStorage)
    (habc : abc ≠ "") (hxyz : xyz ≠ "")
    (habcC : ∀ c ∈ abc.toList, c ≠ '&' ∧ c ≠ '=')
    (hxyzC : ∀ c ∈ xyz.toList, c ≠ '&' ∧ c ≠ '=') :
    AuthService.bootstrapFromHash ⟨"#token=" ++ abc ++ "&refreshToken=" ++ xyz, s⟩ =
      (true, ⟨"", { s with authToken := some abc, refreshToken := some xyz }⟩) := by
  have e0 : ∀ u v : String, (u ++ v).toList = u.toList ++ v.toList := by
    intro u v
    simp [String.toList, String.data_append]
  have hlist : ("#token=" ++ abc ++ "&refreshToken=" ++ xyz).toList =
      '#' :: (("token".toList ++ '=' :: abc.toList) ++
        '&' :: ("refreshToken".toList ++ '=' :: xyz.toList)) := by
    rw [e0, e0, e0]
    have e1 : "#token=".toList = '#' :: ("token".toList ++ ['=']) := by decide
    have e2 : "&refreshToken=".toList = '&' :: ("refreshToken".toList ++ ['=']) := by decide
    rw [e1, e2]
    simp [List.append_assoc]
  simp only [AuthService.bootstrapFromHash]
  rw [hlist]
  simp only [AuthService.bootstrapAux]
  rw [parseParams_two abc.toList xyz.toList habcC hxyzC]
  have g1 : getParam [("token".toList, abc.toList), ("refreshToken".toList, xyz.toList)]
      "token" = some abc := by
    simp [getParam, List.find?, mk_toList]
  have g2 : getParam [("token".toList, abc.toList), ("refreshToken".toList, xyz.toList)]
      "refreshToken" = some xyz := by
    have hne : (("token".toList : List Char) == "refreshToken".toList) = false := by decide
    simp [getParam, List.find?, hne, mk_toList]
  rw [g1, g2]
  simp [habc, hxyz]

/-- Witness for C5 at the concrete fragment values abc and xyz over an empty
store. -/
theorem bootstrapFromHash_oauth_witness :
    AuthService.bootstrapFromHash
        ⟨"#token=" ++ "abc" ++ "&refreshToken=" ++ "xyz", ⟨none, none, none, none⟩⟩ =
      (true, ⟨"", ⟨some "abc", some "xyz", none, none⟩⟩) :=
  bootstrapFromHash_oauth "abc" "xyz" ⟨none, none, none, none⟩
    (by decide) (by decide) (by decide) (by decide)

/-- The accumulator only grows along one level of the findChildren walk. -/
theorem goChildren_sub (rec : String → List String → List String)
    (hrec : ∀ pid acc, acc ⊆ rec pid acc) :
    ∀ (l : List Comment) (acc : List String), acc ⊆ goChildren rec l acc := by
  intro l
  induction l with
  | nil => intro acc; exact fun _ h => h
  | cons c rest ih =>
    intro acc x hx
    rw [goChildren]
    exact ih _ (hrec c.id (c.id :: acc) (List.mem_cons_of_mem _ hx))

/-- The accumulator only grows along the depth-first findChildren walk. -/
theorem findChildrenDfs_sub (cs : List Comment) :
    ∀ (fuel : Nat) (pid : String) (acc : List String),
      acc ⊆ findChildrenDfs cs fuel pid acc := by
  intro fuel
  induction fuel with
  | zero => intro pid acc; exact fun _ h => h
  | succ f ih =>
    intro pid acc
    rw [findChildrenDfs]
    exact goChildren_sub _ (fun p a => ih p a) _ _

/-- Completeness of the depth-first walk: every member of a reply chain from
root is collected, provided the fuel covers the chain length. -/
theorem chain_mem_dfs (cs : List Comment) :
    ∀ (l : List Comment) (root : String), IsChain cs root l →
      ∀ (fuel : Nat), l.length ≤ fuel →
      ∀ (acc : List String) (x : Comment), x ∈ l →
        x.id ∈ findChildrenDfs cs fuel root acc := by
  intro l
  induction l with
  | nil => intro root _ fuel _ acc x hx; cases hx
  | cons c rest ih =>
    intro root hchain fuel hfuel acc x hx
    obtain ⟨hcmem, hcpar, hrest⟩ := hchain
    simp only [List.length_cons] at hfuel
    cases fuel with
    | zero => omega
    | succ f =>
      rw [findChildrenDfs]
      have hp : ∀ acc2 : List String, x.id ∈ findChildrenDfs cs f c.id (c.id :: acc2) := by
        intro acc2
        rcases List.mem_cons.mp hx with hxc | hxr
        · subst hxc
          exact findChildrenDfs_sub cs f x.id (x.id :: acc2) (List.mem_cons_self _ _)
        · exact ih c.id hrest f (by omega) (c.id :: acc2) x hxr
      have hcfilter : c ∈ cs.filter (fun c2 => c2.parentId == some root) := by
        apply List.mem_filter.mpr
        exact ⟨hcmem, by simp [hcpar]⟩
      have walk : ∀ (childs : List Comment), c ∈ childs → ∀ acc2 : List String,
          x.id ∈ goChildren (findChildrenDfs cs f) childs acc2 := by
        intro childs
        induction childs with
        | nil => intro h; cases h
        | cons d t iht =>
          intro hmem acc2
          rw [goChildren]
          rcases List.mem_cons.mp hmem with hdc | hct
          · rw [← hdc]
            exact goChildren_sub _ (fun p a => findChildrenDfs_sub cs f p a) t _ (hp acc2)
          · exact iht hct _
      exact walk _ hcfilter acc

/-- A rank function that decreases from parent to child bounds the length of
every reply chain by the rank of its root. -/
theorem chain_length_le (cs : List Comment) (rank : String → Nat)
    (hrank : ∀ c ∈ cs, rankOk rank c = true) :
    ∀ (l : List Comment) (root : String), IsChain cs root l → l.length ≤ rank root := by
  intro l
  induction l with
  | nil => intro root _; simp
  | cons c rest ih =>
    intro root hchain
    obtain ⟨hcmem, hcpar, hrest⟩ := hchain
    have h1 : rank c.id < rank root := by
      have h := hrank c hcmem
      unfold rankOk at h
      rw [hcpar] at h
      simpa using h
    have h2 := ih c.id hrest
    simp only [List.length_cons]
    omega

/-- C10: a successful comment deletion removes the comment and every transitive
descendant reply: no comment left in the collection is the deleted comment or
lies on a reply chain descending from it.  The rank function certifies that the
reply forest is acyclic with depth bounded by the collection size, which is
what makes the unbounded source recursion terminate. -/
theorem deleteComment_removes_descendants
    (cs : List Comment) (delId : String) (rank : String → Nat)
    (hrank : ∀ c ∈ cs, rankOk rank c = true)
    (hroot : rank delId ≤ cs.length) :
    ∀ x ∈ (handleDeleteComment true true delId cs).1,
      x.id ≠ delId ∧ ∀ l, IsChain cs delId l → x ∉ l := by
  intro x hx
  have hres : (handleDeleteComment true true delId cs).1 =
      cs.filter (fun c => !((commentsToDelete cs delId).contains c.id)) := rfl
  rw [hres] at hx
  obtain ⟨hxcs, hxfilt⟩ := List.mem_filter.mp hx
  have hxnot : x.id ∉ commentsToDelete cs delId := by
    simpa using hxfilt
  constructor
  · intro heq
    apply hxnot
    rw [heq]
    exact findChildrenDfs_sub cs (cs.length + 1) delId [delId] (List.mem_cons_self _ _)
  · intro l hl hxl
    apply hxnot
    have hlen : l.length ≤ cs.length + 1 := by
      have := chain_length_le cs rank hrank l delId hl
      omega
    exact chain_mem_dfs cs l delId hl (cs.length + 1) hlen [delId] x hxl

/-- Witness for C10: deleting the root comment of a two-level reply chain
removes the root and both descendants, leaving only the unrelated comment,
which is provably not the deleted comment. -/
theorem deleteComment_removes_descendants_witness :
    (handleDeleteComment true true "root"
        [⟨"root", "p", none⟩, ⟨"c1", "p", some "root"⟩, ⟨"c2", "p", some "c1"⟩,
          ⟨"c3", "p", none⟩]).1 = [⟨"c3", "p", none⟩] ∧
    (⟨"c3", "p", none⟩ : Comment).id ≠ "root" :=
  ⟨by decide,
    (deleteComment_removes_descendants
      [⟨"root", "p", none⟩, ⟨"c1", "p", some "root"⟩, ⟨"c2", "p", some "c1"⟩,
        ⟨"c3", "p", none⟩] "root"
      (fun i => if i = "root" then 3 else if i = "c1" then 2 else if i = "c2" then 1 else 0)
      (by decide) (by decide) ⟨"c3", "p", none⟩ (by decide)).1⟩

end SoloProject
